import Mathlib

/-!
Verification of the dependapy dependency updater against its specification.

The Python sources under `dependapy/` are shallowly embedded here:
strings are `List Char`, file paths are strings, the filesystem is a
partial map from paths to contents plus a write-permission predicate,
and the two remote registries are oracles passed as parameters.
Every definition mirrors the corresponding function in the source
(`analyzer.py`, `updater.py`, `constants.py`, `main.py`); deviations
forced by totality (fuel, empty-separator guards) are noted where they
occur and are unreachable for the arguments the program uses.
-/

/-- Strings of the embedded program: Python `str` as a list of characters. -/
abbrev Str := List Char

/-- Converts a Lean string literal to the embedded string type. -/
def strL (s : String) : Str := s.data

/-- The whitespace class shared by Python `str.strip()` (no argument) and the
regex class `\s` for ASCII text: space, tab, newline, carriage return,
vertical tab, form feed. -/
def pyWs (c : Char) : Bool :=
  c == ' ' || c == '\t' || c == '\n' || c == '\r' ||
  c == Char.ofNat 11 || c == Char.ofNat 12

/-- `isPre p s` is true when `p` is a prefix of `s`; models Python
`s.startswith(p)` and the anchored-literal step of regex matching. -/
def isPre : Str → Str → Bool
  | [], _ => true
  | _ :: _, [] => false
  | a :: as, b :: bs => a == b && isPre as bs

/-- Models Python `needle in haystack` (substring containment). -/
def isSubstr (needle : Str) : Str → Bool
  | [] => needle.isEmpty
  | c :: cs => isPre needle (c :: cs) || isSubstr needle cs

/-- Models Python `s.strip()` with no argument: removes leading and trailing
whitespace. -/
def pyStrip (s : Str) : Str :=
  ((s.dropWhile pyWs).reverse.dropWhile pyWs).reverse

/-- Worker for `pySplit`: the separator is `c0 :: s1`, `acc` holds the current
chunk reversed. Scans left to right, cutting at each non-overlapping
occurrence of the separator, exactly as Python `str.split(sep)`. The fuel
argument only serves structural termination: every step consumes at least
one character, so the initial fuel `s.length` always suffices and the
fuel-exhausted arm is never reached. -/
def pySplitAux (c0 : Char) (s1 : Str) : Nat → Str → Str → List Str
  | _, acc, [] => [acc.reverse]
  | 0, acc, s => [acc.reverse ++ s]
  | fuel + 1, acc, c :: cs =>
    if c == c0 && isPre s1 cs then
      acc.reverse :: pySplitAux c0 s1 fuel [] (cs.drop s1.length)
    else
      pySplitAux c0 s1 fuel (c :: acc) cs

/-- Models Python `s.split(sep)` for a non-empty separator (Python raises
`ValueError` on an empty separator; no caller passes one, and we return
`[s]` in that unreachable case to stay total). -/
def pySplit (sep : Str) (s : Str) : List Str :=
  match sep with
  | [] => [s]
  | c0 :: s1 => pySplitAux c0 s1 s.length [] s

/-- Worker for `pyReplace`: the needle is `o0 :: o1`. Replaces each
non-overlapping occurrence left to right, as Python `str.replace`. The
fuel only serves structural termination, as in `pySplitAux`. -/
def pyReplaceAux (o0 : Char) (o1 new : Str) : Nat → Str → Str
  | _, [] => []
  | 0, s => s
  | fuel + 1, c :: cs =>
    if c == o0 && isPre o1 cs then
      new ++ pyReplaceAux o0 o1 new fuel (cs.drop o1.length)
    else
      c :: pyReplaceAux o0 o1 new fuel cs

/-- Models Python `s.replace(old, new)` for non-empty `old` (the only shape
the program uses; Python's empty-needle interleaving behaviour is not
needed and we return `s` unchanged in that unreachable case). -/
def pyReplace (old new s : Str) : Str :=
  match old with
  | [] => s
  | o0 :: o1 => pyReplaceAux o0 o1 new s.length s

/-- Embeds `constants.SentinelType` / `constants.SENTINEL`: the union type
`T | SentinelType` that the analyzer and updater return. The sentinel is a
constructor of its own, distinct from every ordinary value `val t`. -/
inductive WithSentinel (α : Type) where
  | SENTINEL : WithSentinel α
  | val : α → WithSentinel α
deriving DecidableEq, Repr

/-- Models the identity test `x is SENTINEL` used throughout the sources. -/
def isSENTINEL {α : Type} : WithSentinel α → Bool
  | .SENTINEL => true
  | .val _ => false

/-- Models Python truthiness (`bool(x)`) for a `T | SentinelType` value,
given truthiness `t` of the payload type: `SentinelType.__bool__` returns
`False` (constants.py), and an ordinary value keeps its own truthiness. -/
def truthyW {α : Type} (t : α → Bool) : WithSentinel α → Bool
  | .SENTINEL => false
  | .val a => t a

/-- Python truthiness of a string: nonempty. -/
def truthyStr (s : Str) : Bool := !s.isEmpty

/-- Embeds `analyzer.parse_dependency_version`: strips one wrapping pair of
double quotes, then splits on `>=`, else `==`, else reports an empty
version. `parts[i]` is modelled by `getD i []`, defined because Python's
split always yields enough parts in the branches where they are read. -/
def parse_dependency_version (spec0 : Str) : Str × Str :=
  let ds :=
    if spec0.head? == some '"' && spec0.getLast? == some '"' then
      (spec0.drop 1).dropLast
    else spec0
  if isSubstr (strL ">=") ds then
    let parts := pySplit (strL ">=") ds
    (pyStrip (parts.getD 0 []), pyStrip (parts.getD 1 []))
  else if isSubstr (strL "==") ds then
    let parts := pySplit (strL "==") ds
    (pyStrip (parts.getD 0 []), pyStrip (parts.getD 1 []))
  else
    (pyStrip ds, [])

/-- Embeds `analyzer.get_min_python_version`: recognizes a leading `>=`,
takes the text before the first comma, strips it, drops the operator, and
if the remainder lies on the `3.` line returns its first two dot-separated
components; otherwise the SENTINEL. The `try/except` in the source guards
operations that cannot fail on these steps. -/
def get_min_python_version (requires_python : Str) : WithSentinel Str :=
  if isPre (strL ">=") requires_python then
    let version_part :=
      (pyStrip ((pySplit (strL ",") requires_python).getD 0 [])).drop 2
    if isPre (strL "3.") version_part then
      let parts := pySplit (strL ".") version_part
      if 2 ≤ parts.length then
        .val (parts.getD 0 [] ++ ['.'] ++ parts.getD 1 [])
      else .SENTINEL
    else .SENTINEL
  else .SENTINEL

/-!
## The updater's substitution pattern

`updater.update_dependencies` builds, for each package update, the regex

  (["']?<pkg>["']?\s*(?:>=|==)\s*)(["']?)<cur>(["']?)([^\n]*)

with `<pkg>` and `<cur>` escaped literals, and applies `re.sub` with a
replacement that keeps groups 1-4 and swaps the version for the new one.
The pattern is hand-compiled below. The three `["']?` before the version
are tried greedily with full backtracking (quote first, then empty),
enumerated in depth-first order. The two `\s*` are taken maximal-munch:
the item after each is the alternation `>=|==`, and no whitespace
character is `>` or `=`, so giving back characters can never help. The
closing `["']?` (group 3) is taken greedily with no backtracking because
the following `[^\n]*` matches any remainder of the line. `[^\n]*` itself
is final and maximal.
-/

/-- The regex character class `["']` of the updater's pattern. -/
def isQuoteChar (c : Char) : Bool := c == '"' || c == Char.ofNat 39

/-- Capture groups of one match of the updater's pattern, together with the
unconsumed remainder of the text after the match. -/
structure ReGroups where
  g1 : Str
  g2 : Str
  g3 : Str
  g4 : Str
  rest : Str
deriving DecidableEq, Repr

/-- One `["']?` item: with `b = true` it must consume a quote character,
with `b = false` it consumes nothing. The two values of `b` are the two
backtracking alternatives of the optional quantifier. -/
def takeOptQuote : Bool → Str → Option (Str × Str)
  | false, s => some ([], s)
  | true, [] => none
  | true, c :: cs => if isQuoteChar c then some ([c], cs) else none

/-- The closing `["']?` after the version (group 3), greedy; no backtracking
is needed because the item after it (`[^\n]*`) always matches. -/
def takeGreedyQuote : Str → Str × Str
  | [] => ([], [])
  | c :: cs => if isQuoteChar c then ([c], cs) else ([], c :: cs)

/-- The alternation `(?:>=|==)`, left alternative first. -/
def takeOp (s : Str) : Option (Str × Str) :=
  if isPre (strL ">=") s then some (strL ">=", s.drop 2)
  else if isPre (strL "==") s then some (strL "==", s.drop 2)
  else none

/-- One deterministic parse of the updater's pattern at the head of `s`:
`b1`, `b2`, `b3` fix the choices of the three backtrackable `["']?` items
(the quote before the package name, after it, and before the version). -/
def reAttempt (pkg ver : Str) (b1 b2 b3 : Bool) (s : Str) : Option ReGroups :=
  match takeOptQuote b1 s with
  | none => none
  | some (q1, s1) =>
    if isPre pkg s1 then
      match takeOptQuote b2 (s1.drop pkg.length) with
      | none => none
      | some (q2, s3) =>
        let ws1 := s3.takeWhile pyWs
        match takeOp (s3.dropWhile pyWs) with
        | none => none
        | some (op, s5) =>
          let ws2 := s5.takeWhile pyWs
          match takeOptQuote b3 (s5.dropWhile pyWs) with
          | none => none
          | some (q3, s7) =>
            if isPre ver s7 then
              let s8 := s7.drop ver.length
              let (q4, s9) := takeGreedyQuote s8
              some ⟨q1 ++ pkg ++ q2 ++ ws1 ++ op ++ ws2, q3, q4,
                    s9.takeWhile (fun c => !(c == '\n')),
                    s9.dropWhile (fun c => !(c == '\n'))⟩
            else none
    else none

/-- Anchored match of the updater's pattern at the head of `s`: the eight
backtracking alternatives of the three optional quotes, in depth-first
order (greedy quantifier: quote before empty, outermost item first). -/
def matchCore (pkg ver : Str) (s : Str) : Option ReGroups :=
  [(true, true, true), (true, true, false), (true, false, true),
   (true, false, false), (false, true, true), (false, true, false),
   (false, false, true), (false, false, false)].findSome?
    (fun b => reAttempt pkg ver b.1 b.2.1 b.2.2 s)

/-- The replacement the updater passes to `re.sub`: groups 1-4 kept, the
matched current version replaced by the new one. -/
def replOf (g : ReGroups) (newVer : Str) : Str :=
  g.g1 ++ g.g2 ++ newVer ++ g.g3 ++ g.g4

/-- `re.sub` scan: try the pattern at each position left to right; on a
match, emit the replacement and continue after the match (matches are
never empty: the operator alternation consumes two characters). The fuel
argument only serves totality; `s.length` is always enough because every
step consumes at least one character. -/
def subAllGo (pkg ver newVer : Str) : Nat → Str → Str
  | _, [] => []
  | 0, s => s
  | fuel + 1, c :: cs =>
    match matchCore pkg ver (c :: cs) with
    | some g => replOf g newVer ++ subAllGo pkg ver newVer fuel g.rest
    | none => c :: subAllGo pkg ver newVer fuel cs

/-- Models `re.sub(pattern, get_replacement, content)` for one package
update in `updater.update_dependencies`. -/
def re_sub (pkg ver newVer s : Str) : Str :=
  subAllGo pkg ver newVer s.length s

/-- True when the updater's pattern matches somewhere in `s` (at any start
position), i.e. when `re.sub` would rewrite something. -/
def hasMatch (pkg ver : Str) : Str → Bool
  | [] => (matchCore pkg ver []).isSome
  | c :: cs => (matchCore pkg ver (c :: cs)).isSome || hasMatch pkg ver cs

/-!
## The updater
-/

/-- Embeds `analyzer.UpdateInfo`. -/
structure UpdateInfo where
  package_name : Str
  current_version : Str
  latest_version : Str
  file_path : Str
deriving DecidableEq, Repr

/-- Embeds `analyzer.PythonVersionUpdateInfo`. -/
structure PythonVersionUpdateInfo where
  current_constraint : Str
  recommended_constraint : Str
  file_path : Str
deriving DecidableEq, Repr

/-- Embeds `analyzer.FileAnalysisResult`. -/
structure FileAnalysisResult where
  file_path : Str
  package_updates : List UpdateInfo
  python_update : Option PythonVersionUpdateInfo
deriving DecidableEq, Repr

/-- Embeds `updater.UpdateResult`. -/
structure UpdateResult where
  file_path : Str
  modified : Bool
deriving DecidableEq, Repr

/-- The filesystem the updater runs against: `contents` maps a path to its
text (`none` models a file whose `open`/`read` raises), and `writeOk`
tells whether writing the path succeeds (`false` models a write that
raises). -/
structure FS where
  contents : Str → Option Str
  writeOk : Str → Bool

/-- The `requires-python` branch of the updater loop (updater.py lines
49-57): exact-text replacement of the quoted current constraint by the
quoted recommended one, and the `modified` flag set whenever a
`python_update` is present. -/
def applyPyUpdate (pu : Option PythonVersionUpdateInfo) (content : Str) :
    Str × Bool :=
  match pu with
  | none => (content, false)
  | some u =>
    (pyReplace
      (strL "requires-python = \"" ++ u.current_constraint ++ strL "\"")
      (strL "requires-python = \"" ++ u.recommended_constraint ++ strL "\"")
      content, true)

/-- The package-update loop of the updater (updater.py lines 60-86): each
update rewrites the content through `re.sub` and unconditionally sets the
`modified` flag. -/
def applyPkgUpdates (us : List UpdateInfo) (content : Str) (modified : Bool) :
    Str × Bool :=
  match us with
  | [] => (content, modified)
  | u :: rest =>
    applyPkgUpdates rest
      (re_sub u.package_name u.current_version u.latest_version content) true

/-- The pure text transformation the updater applies to one file's content
for one scan result: the Python-constraint substitution followed by the
package substitutions in order, with the accumulated `modified` flag. -/
def applyResultText (r : FileAnalysisResult) (content : Str) : Str × Bool :=
  let pc := applyPyUpdate r.python_update content
  applyPkgUpdates r.package_updates pc.1 pc.2

/-- One iteration of the updater's file loop (updater.py lines 34-99): read
the file (a failed read yields an unmodified result and continues),
transform the text, and if the `modified` flag is set write the file back
(a failed write resets the flag). Returns the per-file result, the
filesystem after the iteration, and the list of performed writes. -/
def processOne (fs : FS) (r : FileAnalysisResult) :
    UpdateResult × FS × List (Str × Str) :=
  match fs.contents r.file_path with
  | none => (⟨r.file_path, false⟩, fs, [])
  | some content =>
    let tc := applyResultText r content
    if tc.2 then
      if fs.writeOk r.file_path then
        (⟨r.file_path, true⟩,
         { fs with contents := fun p =>
             if p = r.file_path then some tc.1 else fs.contents p },
         [(r.file_path, tc.1)])
      else (⟨r.file_path, false⟩, fs, [])
    else (⟨r.file_path, false⟩, fs, [])

/-- The updater's fold over the analysis results, threading the filesystem
and accumulating results and writes in order. -/
def updateGo (fs : FS) : List FileAnalysisResult →
    List UpdateResult × List (Str × Str)
  | [] => ([], [])
  | r :: rs =>
    let o := processOne fs r
    let t := updateGo o.2.1 rs
    (o.1 :: t.1, o.2.2 ++ t.2)

/-- Embeds `updater.update_dependencies`: with no analysis results it
returns the SENTINEL (updater.py lines 28-30); otherwise one
`UpdateResult` per input, plus the write log of the run. -/
def update_dependencies (fs : FS) (analysis_results : List FileAnalysisResult) :
    WithSentinel (List UpdateResult) × List (Str × Str) :=
  if analysis_results.isEmpty then (.SENTINEL, [])
  else
    let t := updateGo fs analysis_results
    (.val t.1, t.2)

/-- Embeds the tail of `main.main` after the update step (main.py lines
84-94, in the mode that publishes nothing): a SENTINEL from the update
step logs an error and returns exit code 1; otherwise, whether or not any
file was modified, the run returns exit code 0 (main falls through and
returns `None`, which `sys.exit` maps to 0). -/
def main_after_update (u : WithSentinel (List UpdateResult)) : Nat :=
  match u with
  | .SENTINEL => 1
  | .val us => if (us.filter (fun r => r.modified)).isEmpty then 0 else 0

/-- True when none of the scan result's replacement targets still occurs in
`t`: the quoted `requires-python` assignment for the current constraint is
absent (when a Python update is present), and the package pattern of each
update matches nowhere. Under this condition every substitution of the
updater is the identity on `t`. -/
def noRemainingTargets (r : FileAnalysisResult) (t : Str) : Bool :=
  (match r.python_update with
   | none => true
   | some u =>
     !(isSubstr
        (strL "requires-python = \"" ++ u.current_constraint ++ strL "\"") t)) &&
  r.package_updates.all
    (fun u => !(hasMatch u.package_name u.current_version t))

/-!
## The latest-Python-versions function and the PyPI client
-/

/-- Numeric value of a digit string (the release components of the cycle
labels the end-of-life registry serves, e.g. `"12"`). -/
def digitsToNat (s : Str) : Nat :=
  s.foldl (fun acc c => acc * 10 + (c.toNat - 48)) 0

/-- The sort key `packaging.version.parse` computes for the plain numeric
dotted versions at hand: the tuple of release components. -/
def verKey (s : Str) : List Nat := (pySplit (strL ".") s).map digitsToNat

/-- Strict comparison of release tuples under `packaging`'s ordering: the
shorter tuple is padded with zeros, then compared lexicographically. -/
def keyLt : List Nat → List Nat → Bool
  | [], [] => false
  | [], y :: ys => decide (0 < y) || keyLt [] ys
  | _ :: _, [] => false
  | x :: xs, y :: ys => decide (x < y) || (decide (x = y) && keyLt xs ys)

/-- Insertion step of a stable descending sort by `verKey`: `x` goes in
front of the first element with a strictly smaller key, hence after every
earlier element with an equal or larger key — the placement Python's
stable `list.sort(key=parse, reverse=True)` gives it. -/
def insortDesc (x : Str) : List Str → List Str
  | [] => [x]
  | y :: ys => if keyLt (verKey y) (verKey x) then x :: y :: ys
               else y :: insortDesc x ys

/-- Stable descending sort by `verKey`, modelling
`py3_versions.sort(key=lambda x: parse(x), reverse=True)`. -/
def sortByKeyDesc : List Str → List Str
  | [] => []
  | x :: xs => insortDesc x (sortByKeyDesc xs)

/-- Embeds `constants.NUM_LATEST_PYTHON_VERSIONS`. -/
def NUM_LATEST_PYTHON_VERSIONS : Nat := 3

/-- Embeds the success path of `analyzer.get_latest_python_versions`: the
end-of-life registry's response entries are given by their `cycle` field;
the function filters the `3.` line, sorts descending by version
precedence, and keeps the first `NUM_LATEST_PYTHON_VERSIONS`. (On any
network or parse failure the source returns the hard-coded fallback list
instead; the oracle input models a successful response.) -/
def get_latest_python_versions (cycles : List Str) : List Str :=
  (sortByKeyDesc (cycles.filter (fun v => isPre (strL "3.") v))).take
    NUM_LATEST_PYTHON_VERSIONS

/-- Outcome of one PyPI query in `analyzer.get_latest_version`: a 404
(`notFound`), a successful body carrying `info.version` (`ok`), or any
other failure (`err`). -/
inductive PyPIResponse where
  | notFound : PyPIResponse
  | ok : Str → PyPIResponse
  | err : PyPIResponse

/-- The PyPI registry as an oracle from package name to response. -/
abbrev Registry := Str → PyPIResponse

/-- The in-process cache `analyzer._PYPI_CACHE`: a dict from package name
to cached result (a version string or the SENTINEL). -/
abbrev PypiCache := List (Str × WithSentinel Str)

/-- Dict lookup for the cache (`package_name in _PYPI_CACHE` followed by
`_PYPI_CACHE[package_name]`). -/
def lookupCache : PypiCache → Str → Option (WithSentinel Str)
  | [], _ => none
  | (k, v) :: rest, n => if k = n then some v else lookupCache rest n

/-- Embeds `analyzer.get_latest_version`: a cache hit returns the cached
value with no registry call; a miss performs one registry call, caches a
404 or failure as SENTINEL and a success as its version string, and
returns what it cached. The third component counts registry calls made
by this invocation. -/
def get_latest_version (reg : Registry) (cache : PypiCache) (name : Str) :
    WithSentinel Str × PypiCache × Nat :=
  match lookupCache cache name with
  | some v => (v, cache, 0)
  | none =>
    match reg name with
    | .notFound => (.SENTINEL, (name, .SENTINEL) :: cache, 1)
    | .err => (.SENTINEL, (name, .SENTINEL) :: cache, 1)
    | .ok v => (.val v, (name, .val v) :: cache, 1)

/-!
## Shared lemmas about the string primitives
-/

/-- Characters that can appear in a package name or a version string of a
dependency declaration: not an operator character, not a quote, not
whitespace. -/
def goodChar (c : Char) : Bool :=
  !(c == '>') && !(c == '=') && !(c == '"') && !(pyWs c)

theorem dropWhile_eq_self_of_all (p : Char → Bool) (s : Str)
    (h : ∀ c ∈ s, p c = false) : s.dropWhile p = s := by
  cases s with
  | nil => rfl
  | cons a as =>
    rw [List.dropWhile_cons, h a (List.mem_cons_self a as)]
    simp

theorem pyStrip_eq_self (s : Str) (h : ∀ c ∈ s, pyWs c = false) :
    pyStrip s = s := by
  unfold pyStrip
  rw [dropWhile_eq_self_of_all _ _ h, dropWhile_eq_self_of_all, List.reverse_reverse]
  intro c hc
  exact h c (List.mem_reverse.mp hc)

theorem isPre_append_self (a b : Str) : isPre a (a ++ b) = true := by
  induction a with
  | nil => rfl
  | cons x xs ih => simp [isPre, ih]

theorem pySplitAux_fuel_irrel (c0 : Char) (s1 : Str) :
    ∀ fuel1 s fuel2 acc, s.length ≤ fuel1 → s.length ≤ fuel2 →
      pySplitAux c0 s1 fuel1 acc s = pySplitAux c0 s1 fuel2 acc s := by
  intro fuel1
  induction fuel1 with
  | zero =>
    intro s fuel2 acc h1 _
    have hs : s = [] := List.length_eq_zero.mp (Nat.le_zero.mp h1)
    subst hs
    cases fuel2 <;> rfl
  | succ f ih =>
    intro s fuel2 acc h1 h2
    cases s with
    | nil => cases fuel2 <;> rfl
    | cons c cs =>
      cases fuel2 with
      | zero => simp at h2
      | succ f2 =>
        simp only [List.length_cons, Nat.add_le_add_iff_right] at h1 h2
        simp only [pySplitAux]
        by_cases hcond : (c == c0 && isPre s1 cs) = true
        · rw [if_pos hcond, if_pos hcond]
          have hd : (cs.drop s1.length).length ≤ f := by
            have := List.length_drop s1.length cs
            omega
          have hd2 : (cs.drop s1.length).length ≤ f2 := by
            have := List.length_drop s1.length cs
            omega
          rw [ih (cs.drop s1.length) f2 [] hd hd2]
        · rw [if_neg hcond, if_neg hcond]
          rw [ih cs f2 (c :: acc) h1 h2]

theorem pySplitAux_no_sep (c0 : Char) (s1 v : Str)
    (h : ∀ c ∈ v, (c == c0) = false) :
    ∀ fuel acc, v.length ≤ fuel →
      pySplitAux c0 s1 fuel acc v = [acc.reverse ++ v] := by
  induction v with
  | nil =>
    intro fuel acc _
    cases fuel <;> simp [pySplitAux]
  | cons c cs ih =>
    intro fuel acc hf
    cases fuel with
    | zero => simp at hf
    | succ f =>
      rw [pySplitAux, h c (List.mem_cons_self c cs)]
      simp only [Bool.false_and, if_neg (by simp : ¬(false = true))]
      rw [ih (fun d hd => h d (List.mem_cons_of_mem c hd)) f (c :: acc)
        (by simp only [List.length_cons, Nat.add_le_add_iff_right] at hf; exact hf)]
      simp

theorem pySplitAux_cut (c0 : Char) (s1 pkg v : Str)
    (h : ∀ c ∈ pkg, (c == c0) = false) :
    ∀ fuel acc, (pkg ++ (c0 :: s1) ++ v).length ≤ fuel →
      pySplitAux c0 s1 fuel acc (pkg ++ (c0 :: s1) ++ v) =
        (acc.reverse ++ pkg) :: pySplitAux c0 s1 v.length [] v := by
  induction pkg with
  | nil =>
    intro fuel acc hf
    simp only [List.nil_append, List.cons_append, List.length_cons,
      List.length_append] at hf ⊢
    cases fuel with
    | zero => omega
    | succ f =>
      rw [pySplitAux]
      simp only [beq_self_eq_true, Bool.true_and, isPre_append_self, if_pos rfl]
      rw [List.drop_left]
      rw [pySplitAux_fuel_irrel c0 s1 f v v.length [] (by omega) (Nat.le_refl _)]
      simp
  | cons p ps ih =>
    intro fuel acc hf
    simp only [List.cons_append, List.length_cons] at hf ⊢
    cases fuel with
    | zero => omega
    | succ f =>
      rw [pySplitAux, h p (List.mem_cons_self p ps)]
      simp only [Bool.false_and, if_neg (by simp : ¬(false = true))]
      have hrec := ih (fun d hd => h d (List.mem_cons_of_mem p hd)) f (p :: acc)
        (by simp only [List.length_append, List.length_cons] at hf ⊢; omega)
      simp only [List.cons_append] at hrec
      rw [hrec]
      simp

theorem pySplit_sandwich (c0 : Char) (s1 pkg v : Str)
    (hp : ∀ c ∈ pkg, (c == c0) = false) (hv : ∀ c ∈ v, (c == c0) = false) :
    pySplit (c0 :: s1) (pkg ++ (c0 :: s1) ++ v) = [pkg, v] := by
  show pySplitAux c0 s1 (pkg ++ (c0 :: s1) ++ v).length []
      (pkg ++ (c0 :: s1) ++ v) = [pkg, v]
  rw [pySplitAux_cut c0 s1 pkg v hp _ [] (Nat.le_refl _),
      pySplitAux_no_sep c0 s1 v hv v.length [] (Nat.le_refl _)]
  simp

theorem pySplit_no_sep (c0 : Char) (s1 v : Str)
    (h : ∀ c ∈ v, (c == c0) = false) :
    pySplit (c0 :: s1) v = [v] := by
  show pySplitAux c0 s1 v.length [] v = [v]
  rw [pySplitAux_no_sep c0 s1 v h v.length [] (Nat.le_refl _)]
  simp

theorem isSubstr_sandwich (sep a b : Str) :
    isSubstr sep (a ++ sep ++ b) = true := by
  induction a with
  | nil =>
    simp only [List.nil_append]
    cases sep with
    | nil =>
      cases b with
      | nil => rfl
      | cons x xs => simp [isSubstr, isPre]
    | cons s0 s1 =>
      have hpre : isPre (s0 :: s1) (s0 :: (s1 ++ b)) = true := by
        rw [← List.cons_append]
        exact isPre_append_self (s0 :: s1) b
      simp [isSubstr, hpre]
  | cons x xs ih =>
    have ih' : isSubstr sep (xs ++ (sep ++ b)) = true := by
      rw [← List.append_assoc]
      exact ih
    simp [isSubstr, ih']

theorem isSubstr_false (n0 : Char) (n1 hay : Str)
    (h : ∀ c ∈ hay, (c == n0) = false) :
    isSubstr (n0 :: n1) hay = false := by
  induction hay with
  | nil => rfl
  | cons c cs ih =>
    have hc : (n0 == c) = false := by
      have := h c (List.mem_cons_self c cs)
      simp only [beq_eq_false_iff_ne] at this ⊢
      exact fun hh => this hh.symm
    simp [isSubstr, isPre, hc, ih (fun d hd => h d (List.mem_cons_of_mem c hd))]

theorem goodChar_spec (c : Char) (h : goodChar c = true) :
    (c == '>') = false ∧ (c == '=') = false ∧ (c == '"') = false ∧
      pyWs c = false := by
  simp only [goodChar, Bool.and_eq_true, Bool.not_eq_true'] at h
  exact ⟨h.1.1.1, h.1.1.2, h.1.2, h.2⟩

theorem parse_dv_ge (pkg ver : Str)
    (hp : ∀ c ∈ pkg, goodChar c = true) (hv : ∀ c ∈ ver, goodChar c = true) :
    parse_dependency_version (pkg ++ strL ">=" ++ ver) = (pkg, ver) := by
  have e1 : strL ">=" = ['>', '='] := rfl
  have hpG : ∀ c ∈ pkg, (c == '>') = false :=
    fun c hc => (goodChar_spec c (hp c hc)).1
  have hvG : ∀ c ∈ ver, (c == '>') = false :=
    fun c hc => (goodChar_spec c (hv c hc)).1
  have hq : ((pkg ++ strL ">=" ++ ver).head? == some '"' &&
             (pkg ++ strL ">=" ++ ver).getLast? == some '"') = false := by
    cases pkg with
    | nil => rw [e1]; simp
    | cons p ps =>
      have hpq : (p == '"') = false :=
        (goodChar_spec p (hp p (List.mem_cons_self p ps))).2.2.1
      have hh : ((p :: ps) ++ strL ">=" ++ ver).head? = some p := by
        simp
      rw [hh]
      have : ((some p : Option Char) == some '"') = (p == '"') := rfl
      rw [this, hpq, Bool.false_and]
  have hsub : isSubstr (strL ">=") (pkg ++ strL ">=" ++ ver) = true := by
    rw [e1]
    exact isSubstr_sandwich ['>', '='] pkg ver
  have hsplit : pySplit (strL ">=") (pkg ++ strL ">=" ++ ver) = [pkg, ver] := by
    rw [e1]
    exact pySplit_sandwich '>' ['='] pkg ver hpG hvG
  unfold parse_dependency_version
  rw [hq]
  simp only [Bool.false_eq_true, if_false, hsub, if_true]
  rw [hsplit]
  simp only [List.getD_cons_zero, List.getD_cons_succ]
  rw [pyStrip_eq_self pkg (fun c hc => (goodChar_spec c (hp c hc)).2.2.2),
      pyStrip_eq_self ver (fun c hc => (goodChar_spec c (hv c hc)).2.2.2)]

theorem parse_dv_eqop (pkg ver : Str)
    (hp : ∀ c ∈ pkg, goodChar c = true) (hv : ∀ c ∈ ver, goodChar c = true) :
    parse_dependency_version (pkg ++ strL "==" ++ ver) = (pkg, ver) := by
  have e2 : strL "==" = ['=', '='] := rfl
  have hpE : ∀ c ∈ pkg, (c == '=') = false :=
    fun c hc => (goodChar_spec c (hp c hc)).2.1
  have hvE : ∀ c ∈ ver, (c == '=') = false :=
    fun c hc => (goodChar_spec c (hv c hc)).2.1
  have hq : ((pkg ++ strL "==" ++ ver).head? == some '"' &&
             (pkg ++ strL "==" ++ ver).getLast? == some '"') = false := by
    cases pkg with
    | nil => rw [e2]; simp
    | cons p ps =>
      have hpq : (p == '"') = false :=
        (goodChar_spec p (hp p (List.mem_cons_self p ps))).2.2.1
      have hh : ((p :: ps) ++ strL "==" ++ ver).head? = some p := by
        simp
      rw [hh]
      have : ((some p : Option Char) == some '"') = (p == '"') := rfl
      rw [this, hpq, Bool.false_and]
  have hnotge : isSubstr (strL ">=") (pkg ++ strL "==" ++ ver) = false := by
    have : ∀ c ∈ pkg ++ strL "==" ++ ver, (c == '>') = false := by
      intro c hc
      rcases List.mem_append.mp hc with h1 | h2
      · rcases List.mem_append.mp h1 with h3 | h4
        · exact (goodChar_spec c (hp c h3)).1
        · rw [e2] at h4
          have hc4 : c = '=' := by
            simp only [List.mem_cons, List.not_mem_nil, or_false] at h4
            exact h4.elim id id
          subst hc4
          rfl
      · exact (goodChar_spec c (hv c h2)).1
    exact isSubstr_false '>' ['='] _ this
  have hsub : isSubstr (strL "==") (pkg ++ strL "==" ++ ver) = true := by
    rw [e2]
    exact isSubstr_sandwich ['=', '='] pkg ver
  have hsplit : pySplit (strL "==") (pkg ++ strL "==" ++ ver) = [pkg, ver] := by
    rw [e2]
    exact pySplit_sandwich '=' ['='] pkg ver hpE hvE
  unfold parse_dependency_version
  rw [hq]
  simp only [Bool.false_eq_true, if_false, hnotge, hsub, if_true]
  rw [hsplit]
  simp only [List.getD_cons_zero, List.getD_cons_succ]
  rw [pyStrip_eq_self pkg (fun c hc => (goodChar_spec c (hp c hc)).2.2.2),
      pyStrip_eq_self ver (fun c hc => (goodChar_spec c (hv c hc)).2.2.2)]

theorem parse_dv_unquote (mid : Str)
    (hmid : (mid.head? == some '"' && mid.getLast? == some '"') = false) :
    parse_dependency_version (['"'] ++ mid ++ ['"']) =
      parse_dependency_version mid := by
  have hshape : ['"'] ++ mid ++ ['"'] = '"' :: (mid ++ ['"']) := by simp
  have hlast : ('"' :: (mid ++ ['"'])).getLast? = some '"' := by
    rw [← List.cons_append]
    exact List.getLast?_concat _
  have hcond : (('"' :: (mid ++ ['"'])).head? == some '"' &&
                ('"' :: (mid ++ ['"'])).getLast? == some '"') = true := by
    rw [hlast]; rfl
  conv_lhs => rw [hshape]
  unfold parse_dependency_version
  rw [hcond, hmid]
  simp only [if_true, Bool.false_eq_true, if_false]
  rw [show (('"' :: (mid ++ ['"'])).drop 1) = mid ++ ['"'] from rfl,
      List.dropLast_concat]

theorem parse_dv_ge_quoted (pkg ver : Str)
    (hp : ∀ c ∈ pkg, goodChar c = true) (hv : ∀ c ∈ ver, goodChar c = true) :
    parse_dependency_version (['"'] ++ pkg ++ strL ">=" ++ ver ++ ['"']) =
      (pkg, ver) := by
  have e1 : strL ">=" = ['>', '='] := rfl
  have hq : ((pkg ++ strL ">=" ++ ver).head? == some '"' &&
             (pkg ++ strL ">=" ++ ver).getLast? == some '"') = false := by
    cases pkg with
    | nil => rw [e1]; simp
    | cons p ps =>
      have hpq : (p == '"') = false :=
        (goodChar_spec p (hp p (List.mem_cons_self p ps))).2.2.1
      have hh : ((p :: ps) ++ strL ">=" ++ ver).head? = some p := by simp
      rw [hh]
      have : ((some p : Option Char) == some '"') = (p == '"') := rfl
      rw [this, hpq, Bool.false_and]
  have hassoc : ['"'] ++ pkg ++ strL ">=" ++ ver ++ ['"'] =
      ['"'] ++ (pkg ++ strL ">=" ++ ver) ++ ['"'] := by
    simp [List.append_assoc]
  rw [hassoc, parse_dv_unquote _ hq]
  exact parse_dv_ge pkg ver hp hv

theorem parse_dv_eqop_quoted (pkg ver : Str)
    (hp : ∀ c ∈ pkg, goodChar c = true) (hv : ∀ c ∈ ver, goodChar c = true) :
    parse_dependency_version (['"'] ++ pkg ++ strL "==" ++ ver ++ ['"']) =
      (pkg, ver) := by
  have e2 : strL "==" = ['=', '='] := rfl
  have hq : ((pkg ++ strL "==" ++ ver).head? == some '"' &&
             (pkg ++ strL "==" ++ ver).getLast? == some '"') = false := by
    cases pkg with
    | nil => rw [e2]; simp
    | cons p ps =>
      have hpq : (p == '"') = false :=
        (goodChar_spec p (hp p (List.mem_cons_self p ps))).2.2.1
      have hh : ((p :: ps) ++ strL "==" ++ ver).head? = some p := by simp
      rw [hh]
      have : ((some p : Option Char) == some '"') = (p == '"') := rfl
      rw [this, hpq, Bool.false_and]
  have hassoc : ['"'] ++ pkg ++ strL "==" ++ ver ++ ['"'] =
      ['"'] ++ (pkg ++ strL "==" ++ ver) ++ ['"'] := by
    simp [List.append_assoc]
  rw [hassoc, parse_dv_unquote _ hq]
  exact parse_dv_eqop pkg ver hp hv

theorem parse_dv_bare (pkg : Str) (hp : ∀ c ∈ pkg, goodChar c = true) :
    parse_dependency_version pkg = (pkg, []) := by
  have hq : (pkg.head? == some '"' && pkg.getLast? == some '"') = false := by
    cases pkg with
    | nil => rfl
    | cons p ps =>
      have hpq : (p == '"') = false :=
        (goodChar_spec p (hp p (List.mem_cons_self p ps))).2.2.1
      have : (((p :: ps).head? : Option Char) == some '"') = (p == '"') := rfl
      rw [this, hpq, Bool.false_and]
  have hge : isSubstr (strL ">=") pkg = false :=
    isSubstr_false '>' ['='] pkg (fun c hc => (goodChar_spec c (hp c hc)).1)
  have heq : isSubstr (strL "==") pkg = false :=
    isSubstr_false '=' ['='] pkg (fun c hc => (goodChar_spec c (hp c hc)).2.1)
  unfold parse_dependency_version
  rw [hq]
  simp only [Bool.false_eq_true, if_false, hge, heq]
  rw [pyStrip_eq_self pkg (fun c hc => (goodChar_spec c (hp c hc)).2.2.2)]

/-- Claim C4: for every declaration string of the form `<pkg><op><ver>`,
optionally wrapped in double quotes, with `op` either `>=` or `==`,
`parse_dependency_version` returns the pair `(pkg, ver)`; for a bare
package name with no operator it returns `(name, "")`. The hypotheses
state that the package name and version are made of ordinary declaration
characters (no operator characters, quotes or whitespace). -/
theorem claim_C4_parse_dependency_version (pkg ver : Str)
    (hp : ∀ c ∈ pkg, goodChar c = true) (hv : ∀ c ∈ ver, goodChar c = true) :
    parse_dependency_version (pkg ++ strL ">=" ++ ver) = (pkg, ver) ∧
    parse_dependency_version (pkg ++ strL "==" ++ ver) = (pkg, ver) ∧
    parse_dependency_version (['"'] ++ pkg ++ strL ">=" ++ ver ++ ['"']) =
      (pkg, ver) ∧
    parse_dependency_version (['"'] ++ pkg ++ strL "==" ++ ver ++ ['"']) =
      (pkg, ver) ∧
    parse_dependency_version pkg = (pkg, []) :=
  ⟨parse_dv_ge pkg ver hp hv, parse_dv_eqop pkg ver hp hv,
   parse_dv_ge_quoted pkg ver hp hv, parse_dv_eqop_quoted pkg ver hp hv,
   parse_dv_bare pkg hp⟩

/-- Witness for C4 at `pkg = "requests"`, `ver = "2.25.0"`. -/
theorem claim_C4_witness :
    parse_dependency_version (strL "requests" ++ strL ">=" ++ strL "2.25.0") =
      (strL "requests", strL "2.25.0") :=
  (claim_C4_parse_dependency_version (strL "requests") (strL "2.25.0")
    (by decide) (by decide)).1

theorem gmp_sentinel_of_no_ge (s : Str) (h : isPre (strL ">=") s = false) :
    get_min_python_version s = .SENTINEL := by
  unfold get_min_python_version
  rw [h]
  simp

theorem ge3m_ws_free (m : Str) (hm : ∀ c ∈ m, pyWs c = false) :
    ∀ c ∈ strL ">=3." ++ m, pyWs c = false := by
  intro c hc
  rw [show strL ">=3." = ['>', '=', '3', '.'] from rfl] at hc
  simp only [List.cons_append, List.nil_append, List.mem_cons] at hc
  rcases hc with rfl | rfl | rfl | rfl | hcm
  · decide
  · decide
  · decide
  · decide
  · exact hm c hcm

theorem ge3m_comma_free (m : Str) (hm : ∀ c ∈ m, (c == ',') = false) :
    ∀ c ∈ strL ">=3." ++ m, (c == ',') = false := by
  intro c hc
  rw [show strL ">=3." = ['>', '=', '3', '.'] from rfl] at hc
  simp only [List.cons_append, List.nil_append, List.mem_cons] at hc
  rcases hc with rfl | rfl | rfl | rfl | hcm
  · decide
  · decide
  · decide
  · decide
  · exact hm c hcm

theorem gmp_val_of_part0 (m w : Str)
    (hm : ∀ c ∈ m, (c == '.') = false ∧ pyWs c = false)
    (hw : isPre (strL ">=") w = true)
    (h0 : (pySplit (strL ",") w).getD 0 [] = strL ">=3." ++ m) :
    get_min_python_version w = .val (strL "3." ++ m) := by
  unfold get_min_python_version
  rw [hw]
  simp only [if_true]
  rw [h0, pyStrip_eq_self _ (ge3m_ws_free m (fun c hc => (hm c hc).2))]
  have hdrop : (strL ">=3." ++ m).drop 2 = strL "3." ++ m := rfl
  rw [hdrop]
  rw [isPre_append_self (strL "3.") m]
  simp only [if_true]
  have hsplit : pySplit (strL ".") (strL "3." ++ m) = [['3'], m] := by
    have hsh : strL "3." ++ m = ['3'] ++ ('.' :: []) ++ m := rfl
    rw [hsh]
    exact pySplit_sandwich '.' [] ['3'] m
      (by intro c hc; simp only [List.mem_singleton] at hc; subst hc; decide)
      (fun c hc => (hm c hc).1)
  rw [hsplit]
  have hlen2 : 2 ≤ ([['3'], m] : List Str).length := by simp
  rw [if_pos hlen2]
  rfl

theorem gmp_val_of_part0_tail (m p w : Str)
    (hm : ∀ c ∈ m, (c == '.') = false ∧ pyWs c = false)
    (hp : ∀ c ∈ p, pyWs c = false)
    (hw : isPre (strL ">=") w = true)
    (h0 : (pySplit (strL ",") w).getD 0 [] = strL ">=3." ++ m ++ ['.'] ++ p) :
    get_min_python_version w = .val (strL "3." ++ m) := by
  unfold get_min_python_version
  rw [hw]
  simp only [if_true]
  have hwsfree : ∀ c ∈ strL ">=3." ++ m ++ ['.'] ++ p, pyWs c = false := by
    intro c hc
    simp only [List.mem_append] at hc
    rcases hc with ((hc0 | hcm) | hc2) | hc3
    · have : c = '>' ∨ c = '=' ∨ c = '3' ∨ c = '.' := by
        rw [show strL ">=3." = ['>', '=', '3', '.'] from rfl] at hc0
        simpa using hc0
      rcases this with rfl | rfl | rfl | rfl <;> decide
    · exact (hm c hcm).2
    · have : c = '.' := by simpa using hc2
      subst this; decide
    · exact hp c hc3
  rw [h0, pyStrip_eq_self _ hwsfree]
  have hdrop : (strL ">=3." ++ m ++ ['.'] ++ p).drop 2 =
      strL "3." ++ m ++ ['.'] ++ p := rfl
  rw [hdrop]
  have hpre2 : isPre (strL "3.") (strL "3." ++ m ++ ['.'] ++ p) = true := by
    have hsh : strL "3." ++ m ++ ['.'] ++ p =
        strL "3." ++ (m ++ ['.'] ++ p) := rfl
    rw [hsh]
    exact isPre_append_self (strL "3.") _
  rw [hpre2]
  simp only [if_true]
  have hsplit : pySplit (strL ".") (strL "3." ++ m ++ ['.'] ++ p) =
      ['3'] :: m :: pySplitAux '.' [] p.length [] p := by
    have hsh : strL "3." ++ m ++ ['.'] ++ p =
        ['3'] ++ ('.' :: []) ++ (m ++ ('.' :: []) ++ p) := rfl
    rw [hsh]
    show pySplitAux '.' []
        (['3'] ++ ('.' :: []) ++ (m ++ ('.' :: []) ++ p)).length []
        (['3'] ++ ('.' :: []) ++ (m ++ ('.' :: []) ++ p)) =
      ['3'] :: m :: pySplitAux '.' [] p.length [] p
    rw [pySplitAux_cut '.' [] ['3'] _
      (by intro c hc; simp only [List.mem_singleton] at hc; subst hc; decide)
      _ [] (Nat.le_refl _)]
    have hlen2 : (m ++ ('.' :: []) ++ p).length = (m ++ ('.' :: []) ++ p).length :=
      rfl
    rw [pySplitAux_cut '.' [] m p (fun c hc => (hm c hc).1) _ [] (Nat.le_refl _)]
    simp
  rw [hsplit]
  have hlen : 2 ≤ (['3'] :: m :: pySplitAux '.' [] p.length [] p).length := by
    simp only [List.length_cons]
    omega
  rw [if_pos hlen]
  rfl

/-- Claim C5, amended: `get_min_python_version` returns `"3.Y"` for
constraints `>=3.Y`, `>=3.Y.Z` and `>=3.Y,<more>` — only on the `3.x`
line; a constraint not starting with `>=` yields the SENTINEL. (The
original claim's `>=X.Y` for arbitrary `X` fails: the source checks
`version_part.startswith("3.")`, so `>=4.0` yields the SENTINEL.) -/
theorem claim_C5_get_min_python_version (m p more : Str)
    (hm : ∀ c ∈ m, (c == '.') = false ∧ (c == ',') = false ∧ pyWs c = false)
    (hpp : ∀ c ∈ p, (c == ',') = false ∧ pyWs c = false) :
    get_min_python_version (strL ">=3." ++ m) = .val (strL "3." ++ m) ∧
    get_min_python_version (strL ">=3." ++ m ++ ['.'] ++ p) =
      .val (strL "3." ++ m) ∧
    get_min_python_version (strL ">=3." ++ m ++ [','] ++ more) =
      .val (strL "3." ++ m) ∧
    (∀ s, isPre (strL ">=") s = false →
      get_min_python_version s = .SENTINEL) := by
  have hmd : ∀ c ∈ m, (c == '.') = false ∧ pyWs c = false :=
    fun c hc => ⟨(hm c hc).1, (hm c hc).2.2⟩
  have hcf : ∀ c ∈ strL ">=3." ++ m, (c == ',') = false :=
    ge3m_comma_free m (fun c hc => (hm c hc).2.1)
  refine ⟨?_, ?_, ?_, fun s hs => gmp_sentinel_of_no_ge s hs⟩
  · refine gmp_val_of_part0 m _ hmd rfl ?_
    rw [show strL "," = ',' :: [] from rfl, pySplit_no_sep ',' [] _ hcf]
    rfl
  · refine gmp_val_of_part0_tail m p _ hmd (fun c hc => (hpp c hc).2) rfl ?_
    have hcf2 : ∀ c ∈ strL ">=3." ++ m ++ ['.'] ++ p, (c == ',') = false := by
      intro c hc
      simp only [List.mem_append] at hc
      rcases hc with ((hc0 | hcm) | hc2) | hc3
      · exact hcf c (List.mem_append.mpr (Or.inl hc0))
      · exact hcf c (List.mem_append.mpr (Or.inr hcm))
      · have : c = '.' := by simpa using hc2
        subst this; decide
      · exact (hpp c hc3).1
    rw [show strL "," = ',' :: [] from rfl, pySplit_no_sep ',' [] _ hcf2]
    rfl
  · refine gmp_val_of_part0 m _ hmd rfl ?_
    rw [show strL "," = ',' :: [] from rfl]
    show (pySplitAux ',' []
        ((strL ">=3." ++ m ++ (',' :: []) ++ more)).length []
        (strL ">=3." ++ m ++ (',' :: []) ++ more)).getD 0 [] = _
    rw [pySplitAux_cut ',' [] (strL ">=3." ++ m) more hcf _ [] (Nat.le_refl _)]
    rfl

/-- Witness for C5 at `m = "8"`, `p = "1"`, `more = "<4.0"`: the three
recognized shapes and one rejected shape, concretely. -/
theorem claim_C5_witness :
    get_min_python_version (strL ">=3." ++ strL "8") =
      WithSentinel.val (strL "3." ++ strL "8") :=
  (claim_C5_get_min_python_version (strL "8") (strL "1") (strL "<4.0")
    (by decide) (by decide)).1

/-- Counterexample to C5 as stated: the claim promises `"X.Y"` for every
constraint `>=X.Y`, but for `>=4.0` the source returns the SENTINEL
(`version_part.startswith("3.")` fails), not the string `"4.0"`. -/
theorem claim_C5_counterexample :
    get_min_python_version (strL ">=4.0") = WithSentinel.SENTINEL ∧
    decide (get_min_python_version (strL ">=4.0") =
      WithSentinel.val (strL "4.0")) = false := by
  decide

/-- Claim C6: with end-of-life cycles `{"3.12","3.11","3.10","3.9"}` (in any
response order), `get_latest_python_versions` returns exactly
`["3.12","3.11","3.10"]`: it filters the `3.` line, sorts descending by
version precedence (so `"3.10"` ranks above `"3.9"`), and keeps the top
3. -/
theorem claim_C6_latest_python_versions (l : List Str)
    (h : l.Perm [strL "3.12", strL "3.11", strL "3.10", strL "3.9"]) :
    get_latest_python_versions l = [strL "3.12", strL "3.11", strL "3.10"] := by
  have hmem : l ∈ List.permutations'
      [strL "3.12", strL "3.11", strL "3.10", strL "3.9"] :=
    List.mem_permutations'.mpr h
  have hall : ∀ x ∈ List.permutations'
      [strL "3.12", strL "3.11", strL "3.10", strL "3.9"],
      get_latest_python_versions x =
        [strL "3.12", strL "3.11", strL "3.10"] := by decide
  exact hall l hmem

/-- Witness for C6 at the response order `["3.12","3.11","3.10","3.9"]`. -/
theorem claim_C6_witness :
    get_latest_python_versions
        [strL "3.12", strL "3.11", strL "3.10", strL "3.9"] =
      [strL "3.12", strL "3.11", strL "3.10"] :=
  claim_C6_latest_python_versions _ (List.Perm.refl _)

/-- Claim C2: on the dependency line `"requests>=2.25.0",  # latest is
2.31.0`, the patcher's substitution for an update of `requests` from
`2.25.0` to `2.31.0` yields `"requests>=2.31.0",  # latest is 2.31.0`:
the quoting style and the trailing inline comment are preserved
verbatim. -/
theorem claim_C2_format_preservation :
    applyResultText
        ⟨strL "pyproject.toml",
         [⟨strL "requests", strL "2.25.0", strL "2.31.0",
           strL "pyproject.toml"⟩], none⟩
        (strL "\"requests>=2.25.0\",  # latest is 2.31.0") =
      (strL "\"requests>=2.31.0\",  # latest is 2.31.0", true) := by
  decide

/-- Claim C9: absent-value outcomes are an explicit marker, never conflated
with empty/false values: the SENTINEL is a distinct constructor,
detectable by identity (`isSENTINEL`), unequal to every ordinary value —
including the falsy empty string and empty list (both the sentinel and
`""` are falsy under Python truthiness, yet remain distinguishable) —
and it is what `get_min_python_version` returns for an unrecognized
constraint while a recognized one yields an ordinary value. -/
theorem claim_C9_sentinel_distinct :
    (∀ s : Str, isSENTINEL (WithSentinel.val s) = false) ∧
    isSENTINEL (WithSentinel.SENTINEL : WithSentinel Str) = true ∧
    (∀ s : Str, decide (WithSentinel.val s =
      (WithSentinel.SENTINEL : WithSentinel Str)) = false) ∧
    (∀ l : List UpdateResult, decide (WithSentinel.val l =
      (WithSentinel.SENTINEL : WithSentinel (List UpdateResult))) = false) ∧
    truthyW truthyStr (WithSentinel.val []) = false ∧
    truthyW truthyStr (WithSentinel.SENTINEL : WithSentinel Str) = false ∧
    isSENTINEL (get_min_python_version (strL "~=3.8")) = true ∧
    isSENTINEL (get_min_python_version (strL ">=3.8")) = false ∧
    isSENTINEL (get_latest_version (fun _ => .notFound) [] (strL "x")).1 =
      true ∧
    isSENTINEL (get_latest_version (fun _ => .ok (strL "1.0")) []
      (strL "x")).1 = false := by
  refine ⟨fun s => rfl, rfl, fun s => by simp, fun l => by simp, rfl, rfl,
    ?_, ?_, rfl, rfl⟩
  · decide
  · decide

/-- Claim C7: a call to `get_latest_version` leaves the queried name present
in the cache (whatever the outcome); a repeated call returns the same
value, performs no registry query, and the two calls together make at
most one registry call. -/
theorem claim_C7_pypi_cache (reg : Registry) (cache : PypiCache) (name : Str) :
    (lookupCache (get_latest_version reg cache name).2.1 name).isSome = true ∧
    (get_latest_version reg (get_latest_version reg cache name).2.1 name).1 =
      (get_latest_version reg cache name).1 ∧
    (get_latest_version reg (get_latest_version reg cache name).2.1 name).2.2 =
      0 ∧
    (get_latest_version reg cache name).2.2 +
      (get_latest_version reg (get_latest_version reg cache name).2.1
        name).2.2 ≤ 1 := by
  cases hl : lookupCache cache name with
  | some v =>
    simp [get_latest_version, hl]
  | none =>
    cases hr : reg name <;>
      simp [get_latest_version, hl, hr, lookupCache]

/-- Claim C8, amended: invoked with an empty list of analysis results,
`update_dependencies` returns the SENTINEL marker by a normal return (the
source has no raise on this path — updater.py lines 28-30) and performs
no writes; `main` maps that outcome to a logged failure and exit code 1
(main.py lines 84-86). -/
theorem claim_C8_empty_update (fs : FS) :
    update_dependencies fs [] = (WithSentinel.SENTINEL, []) ∧
    main_after_update (WithSentinel.SENTINEL :
      WithSentinel (List UpdateResult)) = 1 :=
  ⟨rfl, rfl⟩

/-- Counterexample to C8 as stated: the claim says the operation raises; on
a concrete filesystem the embedded operation instead returns normally
with the SENTINEL value (and no exception path exists in the source:
every statement before `return SENTINEL` is a guard). `main` still
reports failure with exit code 1, so only the "raises" part of the claim
is wrong. -/
theorem claim_C8_counterexample :
    update_dependencies ⟨fun _ => none, fun _ => true⟩ [] =
      (WithSentinel.SENTINEL, []) ∧
    main_after_update (update_dependencies
      ⟨fun _ => none, fun _ => true⟩ []).1 = 1 :=
  ⟨rfl, rfl⟩

theorem applyPkgUpdates_flag (us : List UpdateInfo) :
    ∀ content m, (applyPkgUpdates us content m).2 = (m || !us.isEmpty) := by
  induction us with
  | nil => intro content m; simp [applyPkgUpdates]
  | cons u rest ih => intro content m; simp [applyPkgUpdates, ih]

theorem applyResultText_flag (r : FileAnalysisResult) (content : Str) :
    (applyResultText r content).2 =
      (r.python_update.isSome || !r.package_updates.isEmpty) := by
  unfold applyResultText applyPyUpdate
  cases r.python_update <;> simp [applyPkgUpdates_flag]

/-- Claim C1, amended: when the file is readable, the updater marks it
modified and writes it back exactly when the scan result carries at least
one update (a Python constraint update or a package update) and the write
succeeds — regardless of whether any substitution changed the text. A
scan result whose patterns match nothing therefore still yields
`modified = true` and a rewrite of identical content (no error), not
`modified = false` as the claim states. -/
theorem claim_C1_write_behavior (fs : FS) (r : FileAnalysisResult)
    (content : Str) (h : fs.contents r.file_path = some content) :
    ((processOne fs r).1).modified =
      ((r.python_update.isSome || !r.package_updates.isEmpty) &&
        fs.writeOk r.file_path) ∧
    (processOne fs r).2.2 =
      (if (r.python_update.isSome || !r.package_updates.isEmpty) &&
          fs.writeOk r.file_path
       then [(r.file_path, (applyResultText r content).1)] else []) := by
  unfold processOne
  rw [h]
  cases hfl : (r.python_update.isSome || !r.package_updates.isEmpty) with
  | true =>
    cases hw : fs.writeOk r.file_path with
    | true => simp [applyResultText_flag, hfl, hw]
    | false => simp [applyResultText_flag, hfl, hw]
  | false => simp [applyResultText_flag, hfl]

/-- Witness for C1 (amended) on a readable single-update file. -/
theorem claim_C1_witness :
    ((processOne ⟨fun _ => some (strL "x = 1\n"), fun _ => true⟩
        ⟨strL "p",
         [⟨strL "requests", strL "2.25.0", strL "2.31.0", strL "p"⟩],
         none⟩).1).modified = true ∧
    (processOne ⟨fun _ => some (strL "x = 1\n"), fun _ => true⟩
        ⟨strL "p",
         [⟨strL "requests", strL "2.25.0", strL "2.31.0", strL "p"⟩],
         none⟩).2.2 =
      [(strL "p",
        (applyResultText
          ⟨strL "p",
           [⟨strL "requests", strL "2.25.0", strL "2.31.0", strL "p"⟩],
           none⟩ (strL "x = 1\n")).1)] :=
  claim_C1_write_behavior _ _ _ rfl

/-- Counterexample to C1 as stated: a scan result for `requests` whose
pattern matches nothing in the file content `name = "t"\n`. No
substitution changes the text (first conjunct), yet the updater reports
`modified = true` (second conjunct) and writes the unchanged content back
to disk (third conjunct) — the claim predicted `modified = false` and no
write. -/
theorem claim_C1_counterexample :
    (applyResultText
        ⟨strL "p", [⟨strL "requests", strL "2.25.0", strL "2.31.0", strL "p"⟩],
         none⟩ (strL "name = \"t\"\n")) =
      (strL "name = \"t\"\n", true) ∧
    (update_dependencies ⟨fun _ => some (strL "name = \"t\"\n"), fun _ => true⟩
        [⟨strL "p", [⟨strL "requests", strL "2.25.0", strL "2.31.0", strL "p"⟩],
          none⟩]).1 =
      WithSentinel.val [⟨strL "p", true⟩] ∧
    (update_dependencies ⟨fun _ => some (strL "name = \"t\"\n"), fun _ => true⟩
        [⟨strL "p", [⟨strL "requests", strL "2.25.0", strL "2.31.0", strL "p"⟩],
          none⟩]).2 =
      [(strL "p", strL "name = \"t\"\n")] := by
  refine ⟨?_, ?_, ?_⟩ <;> decide

theorem pyReplaceAux_no_occ (o0 : Char) (o1 new : Str) :
    ∀ fuel t, isSubstr (o0 :: o1) t = false →
      pyReplaceAux o0 o1 new fuel t = t := by
  intro fuel
  induction fuel with
  | zero => intro t _; cases t <;> rfl
  | succ f ih =>
    intro t ht
    cases t with
    | nil => rfl
    | cons c cs =>
      rw [isSubstr] at ht
      have h1 : isPre (o0 :: o1) (c :: cs) = false ∧
          isSubstr (o0 :: o1) cs = false := by simpa using ht
      have hp1 : ((o0 == c) && isPre o1 cs) = false := by
        rw [← h1.1]; rfl
      have hcond : (c == o0 && isPre o1 cs) = false := by
        by_cases hc : c = o0
        · subst hc; simpa using hp1
        · rw [beq_eq_false_iff_ne.mpr hc, Bool.false_and]
      rw [pyReplaceAux, hcond]
      simp only [if_neg (by simp : ¬(false = true))]
      rw [ih cs h1.2]

theorem pyReplace_no_occ (old new t : Str) (h : isSubstr old t = false) :
    pyReplace old new t = t := by
  cases old with
  | nil => rfl
  | cons o0 o1 => exact pyReplaceAux_no_occ o0 o1 new t.length t h

theorem subAllGo_no_match (pkg ver newVer : Str) :
    ∀ fuel t, hasMatch pkg ver t = false →
      subAllGo pkg ver newVer fuel t = t := by
  intro fuel
  induction fuel with
  | zero => intro t _; cases t <;> rfl
  | succ f ih =>
    intro t ht
    cases t with
    | nil => rfl
    | cons c cs =>
      rw [hasMatch] at ht
      have h1 : (matchCore pkg ver (c :: cs)).isSome = false ∧
          hasMatch pkg ver cs = false := by simpa using ht
      cases hm : matchCore pkg ver (c :: cs) with
      | some g => rw [hm] at h1; simp at h1
      | none =>
        rw [subAllGo, hm]
        rw [ih cs h1.2]

theorem re_sub_no_match (pkg ver newVer t : Str)
    (h : hasMatch pkg ver t = false) : re_sub pkg ver newVer t = t :=
  subAllGo_no_match pkg ver newVer t.length t h

theorem applyPkgUpdates_no_match (us : List UpdateInfo) :
    ∀ t m, (∀ u ∈ us, hasMatch u.package_name u.current_version t = false) →
      (applyPkgUpdates us t m).1 = t := by
  induction us with
  | nil => intro t m _; rfl
  | cons u rest ih =>
    intro t m h
    have h0 : re_sub u.package_name u.current_version u.latest_version t = t :=
      re_sub_no_match _ _ _ t (h u (List.mem_cons_self u rest))
    rw [applyPkgUpdates, h0]
    exact ih t true (fun v hv => h v (List.mem_cons_of_mem u hv))

theorem applyResultText_no_targets (r : FileAnalysisResult) (t : Str)
    (h : noRemainingTargets r t = true) : (applyResultText r t).1 = t := by
  rw [noRemainingTargets, Bool.and_eq_true] at h
  have hall : ∀ u ∈ r.package_updates,
      hasMatch u.package_name u.current_version t = false := by
    intro u hu
    have := List.all_eq_true.mp h.2 u hu
    simpa using this
  unfold applyResultText applyPyUpdate
  cases hpu : r.python_update with
  | none => exact applyPkgUpdates_no_match r.package_updates t false hall
  | some pu =>
    rw [hpu] at h
    have hocc : isSubstr
        (strL "requires-python = \"" ++ pu.current_constraint ++ strL "\"")
        t = false := by
      have := h.1
      simpa using this
    show (applyPkgUpdates r.package_updates
        (pyReplace
          (strL "requires-python = \"" ++ pu.current_constraint ++ strL "\"")
          (strL "requires-python = \"" ++ pu.recommended_constraint ++
            strL "\"") t) true).1 = t
    rw [pyReplace_no_occ _ _ t hocc]
    exact applyPkgUpdates_no_match r.package_updates t true hall

/-- Claim C3, amended: applying the patcher's text transformation a second
time with the same scan result is a no-op provided none of the result's
replacement targets still occurs in the once-transformed text (the
typical case: the old version string is gone). The unconditional claim
fails: when the current version string is a proper prefix of the new one
(e.g. `2.2` to `2.25`), the pattern still matches after the first
application and the second application changes the text again. -/
theorem claim_C3_idempotent_no_targets (r : FileAnalysisResult) (s : Str)
    (h : noRemainingTargets r ((applyResultText r s).1) = true) :
    (applyResultText r ((applyResultText r s).1)).1 =
      (applyResultText r s).1 :=
  applyResultText_no_targets r _ h

/-- Witness for C3 (amended) on the `requests` update `2.25.0` to `2.31.0`
applied to a quoted dependency line: after one application the old
version no longer occurs, and the second application is a no-op. -/
theorem claim_C3_witness :
    (applyResultText
        ⟨strL "p", [⟨strL "requests", strL "2.25.0", strL "2.31.0", strL "p"⟩],
         none⟩
        ((applyResultText
          ⟨strL "p", [⟨strL "requests", strL "2.25.0", strL "2.31.0", strL "p"⟩],
           none⟩
          (strL "\"requests>=2.25.0\",  # latest is 2.31.0")).1)).1 =
      (applyResultText
        ⟨strL "p", [⟨strL "requests", strL "2.25.0", strL "2.31.0", strL "p"⟩],
         none⟩
        (strL "\"requests>=2.25.0\",  # latest is 2.31.0")).1 :=
  claim_C3_idempotent_no_targets _ _ (by decide)

/-- Counterexample to C3 as stated: for the update of `requests` from `2.2`
to `2.25`, one application rewrites `requests>=2.2` to `requests>=2.25`,
but the pattern still matches there (the old version is a prefix of the
new), so the second application yields `requests>=2.255`; applying the
patcher twice is not the same as applying it once. -/
theorem claim_C3_counterexample :
    (applyResultText
        ⟨strL "p", [⟨strL "requests", strL "2.2", strL "2.25", strL "p"⟩],
         none⟩ (strL "requests>=2.2")).1 = strL "requests>=2.25" ∧
    (applyResultText
        ⟨strL "p", [⟨strL "requests", strL "2.2", strL "2.25", strL "p"⟩],
         none⟩ (strL "requests>=2.25")).1 = strL "requests>=2.255" ∧
    decide (strL "requests>=2.255" = strL "requests>=2.25") = false := by
  refine ⟨?_, ?_, ?_⟩ <;> decide

theorem processOne_path (fs : FS) (r : FileAnalysisResult) :
    ((processOne fs r).1).file_path = r.file_path := by
  unfold processOne
  cases hc : fs.contents r.file_path with
  | none => rfl
  | some content =>
    cases h2 : (applyResultText r content).2 <;>
      cases h3 : fs.writeOk r.file_path <;> simp [h2, h3]

theorem processOne_keeps_writeOk (fs : FS) (r : FileAnalysisResult) :
    ((processOne fs r).2.1).writeOk = fs.writeOk := by
  unfold processOne
  cases hc : fs.contents r.file_path with
  | none => rfl
  | some content =>
    cases h2 : (applyResultText r content).2 <;>
      cases h3 : fs.writeOk r.file_path <;> simp [h2, h3]

theorem processOne_keeps_none (fs : FS) (r : FileAnalysisResult) (p : Str)
    (h : fs.contents p = none) :
    ((processOne fs r).2.1).contents p = none := by
  unfold processOne
  cases hc : fs.contents r.file_path with
  | none => exact h
  | some content =>
    cases h2 : (applyResultText r content).2 with
    | false => simpa [h2] using h
    | true =>
      cases h3 : fs.writeOk r.file_path with
      | false => simpa [h2, h3] using h
      | true =>
        simp only [h2, h3, if_true]
        by_cases hp : p = r.file_path
        · subst hp
          rw [h] at hc
          cases hc
        · simp [hp, h]

theorem processOne_modified_unreadable (fs : FS) (r : FileAnalysisResult)
    (h : fs.contents r.file_path = none) :
    ((processOne fs r).1).modified = false := by
  unfold processOne
  rw [h]

theorem processOne_modified_unwritable (fs : FS) (r : FileAnalysisResult)
    (h : fs.writeOk r.file_path = false) :
    ((processOne fs r).1).modified = false := by
  unfold processOne
  cases hc : fs.contents r.file_path with
  | none => rfl
  | some content =>
    cases h2 : (applyResultText r content).2 <;> simp [h2, h]

theorem updateGo_paths (rs : List FileAnalysisResult) :
    ∀ fs, ((updateGo fs rs).1).map (fun u => u.file_path) =
      rs.map (fun r => r.file_path) := by
  induction rs with
  | nil => intro fs; rfl
  | cons r rest ih =>
    intro fs
    simp only [updateGo, List.map_cons]
    rw [processOne_path, ih]

theorem updateGo_unreadable (rs : List FileAnalysisResult) :
    ∀ fs p, fs.contents p = none →
      ∀ u ∈ (updateGo fs rs).1, u.file_path = p → u.modified = false := by
  induction rs with
  | nil => intro fs p _ u hu; simp [updateGo] at hu
  | cons r rest ih =>
    intro fs p h u hu hup
    simp only [updateGo, List.mem_cons] at hu
    rcases hu with rfl | hu2
    · have hrp : r.file_path = p := by
        rw [← processOne_path fs r]
        exact hup
      exact processOne_modified_unreadable fs r (by rw [hrp]; exact h)
    · exact ih (processOne fs r).2.1 p (processOne_keeps_none fs r p h) u hu2 hup

theorem updateGo_unwritable (rs : List FileAnalysisResult) :
    ∀ fs p, fs.writeOk p = false →
      ∀ u ∈ (updateGo fs rs).1, u.file_path = p → u.modified = false := by
  induction rs with
  | nil => intro fs p _ u hu; simp [updateGo] at hu
  | cons r rest ih =>
    intro fs p h u hu hup
    simp only [updateGo, List.mem_cons] at hu
    rcases hu with rfl | hu2
    · have hrp : r.file_path = p := by
        rw [← processOne_path fs r]
        exact hup
      exact processOne_modified_unwritable fs r (by rw [hrp]; exact h)
    · refine ih (processOne fs r).2.1 p ?_ u hu2 hup
      rw [processOne_keeps_writeOk]
      exact h

/-- Claim C10: for every non-empty input list, `update_dependencies` returns
exactly one `UpdateResult` per input, in input order, each carrying that
input's file path; a file that is unreadable, or whose path cannot be
written, yields a result with `modified = false` rather than being
dropped from the output or aborting the remaining files. -/
theorem claim_C10_one_result_per_input (fs : FS)
    (rs : List FileAnalysisResult) (h : rs ≠ []) :
    ∃ out, (update_dependencies fs rs).1 = WithSentinel.val out ∧
      out.length = rs.length ∧
      out.map (fun u => u.file_path) = rs.map (fun r => r.file_path) ∧
      (∀ p, fs.contents p = none →
        ∀ u ∈ out, u.file_path = p → u.modified = false) ∧
      (∀ p, fs.writeOk p = false →
        ∀ u ∈ out, u.file_path = p → u.modified = false) := by
  have hne : rs.isEmpty = false := by
    cases rs with
    | nil => exact absurd rfl h
    | cons a l => rfl
  refine ⟨(updateGo fs rs).1, ?_, ?_, updateGo_paths rs fs,
    fun p hp => updateGo_unreadable rs fs p hp,
    fun p hp => updateGo_unwritable rs fs p hp⟩
  · unfold update_dependencies
    rw [hne]
    simp
  · have hmap := congrArg List.length (updateGo_paths rs fs)
    simpa using hmap

/-- Witness for C10: two analysis results, the second for a file missing
from the filesystem; the output keeps both, in order, with the missing
file reported unmodified. -/
theorem claim_C10_witness :
    ∃ out,
      (update_dependencies
        ⟨fun p => if p = strL "a" then some (strL "x = 1\n") else none,
         fun _ => true⟩
        [⟨strL "a", [], none⟩, ⟨strL "b", [], none⟩]).1 =
        WithSentinel.val out ∧
      out.length = ([⟨strL "a", [], none⟩, ⟨strL "b", [], none⟩] :
        List FileAnalysisResult).length ∧
      out.map (fun u => u.file_path) =
        ([⟨strL "a", [], none⟩, ⟨strL "b", [], none⟩] :
          List FileAnalysisResult).map (fun r => r.file_path) ∧
      (∀ p, (fun p => if p = strL "a" then some (strL "x = 1\n") else none :
          Str → Option Str) p = none →
        ∀ u ∈ out, u.file_path = p → u.modified = false) ∧
      (∀ p, (fun _ => true : Str → Bool) p = false →
        ∀ u ∈ out, u.file_path = p → u.modified = false) :=
  claim_C10_one_result_per_input _ _ (by decide)
